import Mathlib

/-!
Shallow embedding of the D3 dispersion-coefficient core of this repository
(`morfeus/calculators.py`, class `D3Calculator`, together with the
`c8 = 3 * c6 * r2_r4[element] ** 2` relation also used in
`morfeus/io.py`, class `D4Parser`).

The arithmetic of the source (numpy floating point) is modelled over `ℝ`.
Two places where IEEE semantics are visible get explicit treatment:
* division of a positive number by a zero distance yields `+inf`, and the
  sigmoid of `+inf` is exactly `1`: the per-pair coordination term carries
  that limit as an explicit branch (`cnTerm`);
* `0 / 0` (an all-zero interpolation weight sum) yields NaN in numpy and the
  junk value `0` under Lean's division convention; neither raises.
-/

open scoped BigOperators

namespace Morfeus

/-- Atom record (`morfeus.geometry.Atom`; that module is not under `src/`,
but `calculators.py` only uses the four constructor fields, stored as
attributes: element, coordinates, radius, index). The mutable
`coordination_number` attribute is handled functionally below. -/
structure Atom where
  element : ℕ
  coordinates : ℝ × ℝ × ℝ
  radius : ℝ
  index : ℕ

/-- Constant `k_1 = 16` from `D3Calculator.__init__`. -/
def k_1 : ℝ := 16

/-- Constant `k_2 = 4 / 3` from `D3Calculator.__init__`. -/
noncomputable def k_2 : ℝ := 4 / 3

/-- Constant `k_3 = 4` from `D3Calculator.__init__`. -/
def k_3 : ℝ := 4

/-- Euclidean distance between two coordinate triples, as computed by
`scipy.spatial.distance.cdist` in `D3Calculator.__init__`. -/
noncomputable def euclid (p q : ℝ × ℝ × ℝ) : ℝ :=
  Real.sqrt ((p.1 - q.1) ^ 2 + (p.2.1 - q.2.1) ^ 2 + (p.2.2 - q.2.2) ^ 2)

/-- One term of the coordination-number sum,
`1 / (1 + np.exp(-k_1 * (k_2 * (r_i + r_j) / d - 1)))`.
When `d = 0` the source's IEEE arithmetic gives `(r_i + r_j) / 0 = +inf`
(numpy emits a RuntimeWarning but does not raise), and the sigmoid of `+inf`
is exactly `1`; that limit is carried here as an explicit branch. -/
noncomputable def cnTerm (ri rj d : ℝ) : ℝ :=
  if d = 0 then 1 else 1 / (1 + Real.exp (-k_1 * (k_2 * (ri + rj) / d - 1)))

/-- Sum `np.sum(1 / (1 + np.exp(-k_1 * (k_2 * (cn_atom.radius + radii) / dists - 1))))`:
the coordination number of `a` given the list of all other atoms. -/
noncomputable def coordination_number (a : Atom) (others : List Atom) : ℝ :=
  (others.map
    (fun b => cnTerm a.radius b.radius (euclid a.coordinates b.coordinates))).sum

/-- Coordination number of the atom at position `i`: the source's
`[atom for atom in atoms if atom is not cn_atom]` removes exactly the `i`-th
entry (each `Atom` object is freshly constructed, so `is not` is position
inequality), i.e. `atoms.eraseIdx i`. -/
noncomputable def cnAt (atoms : List Atom) (i : Fin atoms.length) : ℝ :=
  coordination_number (atoms.get i) (atoms.eraseIdx i)

/-- The coordination numbers of all atoms, in input order. -/
noncomputable def atomCNs (atoms : List Atom) : List ℝ :=
  List.ofFn (cnAt atoms)

/-- One row of the reference matrix `c6_reference_data[element]`:
`reference_data[:,0]` is the reference C6(AA) value, `reference_data[:,1]`
and `reference_data[:,2]` the two reference coordination numbers. -/
structure RefEntry where
  c6ref : ℝ
  cn1 : ℝ
  cn2 : ℝ

/-- Weight `L = np.exp(-k_3 * r)` with `r = (cn - cn_1)**2 + (cn - cn_2)**2`. -/
noncomputable def refWeight (cn : ℝ) (e : RefEntry) : ℝ :=
  Real.exp (-k_3 * ((cn - e.cn1) ^ 2 + (cn - e.cn2) ^ 2))

/-- Weight sum `W = np.sum(L)`. -/
noncomputable def weightSum (refs : List RefEntry) (cn : ℝ) : ℝ :=
  (refs.map (refWeight cn)).sum

/-- Weighted sum `Z = np.sum(c6_ref * L)`. -/
noncomputable def weightedC6Sum (refs : List RefEntry) (cn : ℝ) : ℝ :=
  (refs.map (fun e => e.c6ref * refWeight cn e)).sum

/-- Quotient `c6 = Z / W` (the source divides unconditionally; for `W = 0` numpy
produces NaN without raising, rendered here by Lean's `x / 0 = 0`). -/
noncomputable def interpolateC6 (refs : List RefEntry) (cn : ℝ) : ℝ :=
  weightedC6Sum refs cn / weightSum refs cn

/-- Relation `c8 = 3 * c6 * r2_r4[element] ** 2` (`calculators.py` line 167 and
`io.py` line 168). -/
noncomputable def extrapolateC8 (c6 r2r4 : ℝ) : ℝ :=
  3 * c6 * r2r4 ^ 2

/-- Modelled from the spec: per-element constant lookups. `get_radii` with
the `pyykko` scheme (`morfeus.helpers`) and the `r2_r4` table
(`morfeus.data`) are not under `src/`; the spec describes them as read-only
per-element tables (ElementTable), so they enter as a parameter. Likewise
`convert_elements` (also `morfeus.helpers`) is, per the spec, the identity
on canonical atomic numbers, which is how elements are given here. -/
structure ElementData where
  covalentRadius : ℕ → ℝ
  r2r4 : ℕ → ℝ

/-- The only runtime failure of `D3Calculator.__init__` on validated
numeric input: the `c6_reference_data[atom.element]` dictionary lookup
raising `KeyError` for an element without reference entries. -/
inductive CalcError where
  | missingReferenceData (element : ℕ)
deriving DecidableEq

/-- The unpickled `c6_reference_data` dictionary: atomic number to reference
matrix rows, `none` when the key is absent (the data file is a packaged
resource, hence a parameter). -/
def RefTable : Type := ℕ → Option (List RefEntry)

/-- The atom-construction loop:
`for i, (element, coordinate, radius) in enumerate(zip(...), start=1)`.
`zip` silently truncates to the shorter of the two input lists; the radius
of an atom is the per-element covalent radius of its element. -/
noncomputable def buildAtoms (elements : List ℕ) (coordinates : List (ℝ × ℝ × ℝ))
    (ed : ElementData) : List Atom :=
  (elements.zip coordinates).enum.map
    (fun p => ⟨p.2.1, p.2.2, ed.covalentRadius p.2.1, p.1 + 1⟩)

/-- The body of the per-atom loop computing `(c6, c8)`: a missing
dictionary entry raises (KeyError), otherwise the interpolation and the C8
extrapolation are applied. -/
noncomputable def atomC6C8 (table : RefTable) (ed : ElementData) (a : Atom) (cn : ℝ) :
    Except CalcError (ℝ × ℝ) :=
  match table a.element with
  | none => .error (.missingReferenceData a.element)
  | some refs =>
    let c6 := interpolateC6 refs cn
    .ok (c6, extrapolateC8 c6 (ed.r2r4 a.element))

/-- The per-atom loop over `atoms`, appending `(c6, c8)` pairs; the first
raised error aborts the whole loop, exactly as a Python exception would. -/
noncomputable def computePairs (table : RefTable) (ed : ElementData) :
    List (Atom × ℝ) → Except CalcError (List (ℝ × ℝ))
  | [] => .ok []
  | p :: rest =>
    match atomC6C8 table ed p.1 p.2 with
    | .error e => .error e
    | .ok v =>
      match computePairs table ed rest with
      | .error e => .error e
      | .ok vs => .ok (v :: vs)

/-- Class `D3Calculator.__init__` end to end: build atoms, compute coordination
numbers, then the `(c6, c8)` loop; on success the result is the pair
`(c6_coefficients, c8_coefficients)`, in input order. -/
noncomputable def D3Calculator (elements : List ℕ) (coordinates : List (ℝ × ℝ × ℝ))
    (table : RefTable) (ed : ElementData) : Except CalcError (List ℝ × List ℝ) :=
  match computePairs table ed ((buildAtoms elements coordinates ed).zip
      (atomCNs (buildAtoms elements coordinates ed))) with
  | .error e => .error e
  | .ok vs => .ok (vs.map Prod.fst, vs.map Prod.snd)

/-- The value `atomC6C8` returns when the reference lookup succeeds,
expressed totally via `Option.getD`. -/
noncomputable def pairValue (table : RefTable) (ed : ElementData) (p : Atom × ℝ) : ℝ × ℝ :=
  let refs := (table p.1.element).getD []
  let c6 := interpolateC6 refs p.2
  (c6, extrapolateC8 c6 (ed.r2r4 p.1.element))

/-! Concrete data used to evaluate the embedding on explicit inputs:
a miniature element table and reference tables in the shape the source
consumes. -/

/-- Element table for the examples: every element has covalent radius 1 and
r2r4 constant 1. -/
noncomputable def egED : ElementData := ⟨fun _ => 1, fun _ => 1⟩

/-- Reference table for the examples: element 1 has a single reference row
`(c6_ref, cn_1, cn_2) = (1, 0, 0)`; every other element is absent. -/
noncomputable def egTable : RefTable := fun e => if e = 1 then some [⟨1, 0, 0⟩] else none

/-- Reference table whose element 3 is present but with an empty reference
matrix, so every interpolation weight sum over it is `0`. -/
noncomputable def egTableEmpty : RefTable := fun e => if e = 3 then some [] else none

/-- Example atom of element 1 at the origin. -/
noncomputable def egA : Atom := ⟨1, (0, 0, 0), 1, 1⟩

/-- Example atom of element 1 at `(1, 0, 0)`. -/
noncomputable def egB : Atom := ⟨1, (1, 0, 0), 1, 2⟩

/-- Example atom coincident with `egA`. -/
noncomputable def egC : Atom := ⟨1, (0, 0, 0), 1, 2⟩

/-- Two reference rows with distinct reference C6 values `1` and `2`. -/
noncomputable def egRefs2 : List RefEntry := [⟨1, 0, 0⟩, ⟨2, 1, 1⟩]

/-! Index-level view of the same computation, for inputs given as functions
on `Fin n`; used to state and prove order-equivariance. -/

/-- The atom built for index `i` when the inputs are `Fin n`-indexed. -/
noncomputable def atomFn {n : ℕ} (elems : Fin n → ℕ) (coords : Fin n → ℝ × ℝ × ℝ)
    (ed : ElementData) (i : Fin n) : Atom :=
  ⟨elems i, coords i, ed.covalentRadius (elems i), i + 1⟩

/-- The coordination number of atom `i` as a sum over all other indices. -/
noncomputable def cnFn {n : ℕ} (elems : Fin n → ℕ) (coords : Fin n → ℝ × ℝ × ℝ)
    (ed : ElementData) (i : Fin n) : ℝ :=
  ∑ j ∈ Finset.univ.erase i,
    cnTerm (ed.covalentRadius (elems i)) (ed.covalentRadius (elems j))
      (euclid (coords i) (coords j))

/-- The C6 coefficient of atom `i`, index-level view. -/
noncomputable def c6Fn {n : ℕ} (table : RefTable) (ed : ElementData)
    (elems : Fin n → ℕ) (coords : Fin n → ℝ × ℝ × ℝ) (i : Fin n) : ℝ :=
  interpolateC6 ((table (elems i)).getD []) (cnFn elems coords ed i)

/-- The C8 coefficient of atom `i`, index-level view. -/
noncomputable def c8Fn {n : ℕ} (table : RefTable) (ed : ElementData)
    (elems : Fin n → ℕ) (coords : Fin n → ℝ × ℝ × ℝ) (i : Fin n) : ℝ :=
  extrapolateC8 (c6Fn table ed elems coords i) (ed.r2r4 (elems i))

end Morfeus

namespace Morfeus

/-! ### Basic facts about the embedding -/

/-- The Euclidean distance vanishes exactly on coincident positions. -/
theorem euclid_eq_zero_iff (p q : ℝ × ℝ × ℝ) : euclid p q = 0 ↔ p = q := by
  unfold euclid
  constructor
  · intro h
    have hnn : (0 : ℝ) ≤ (p.1 - q.1) ^ 2 + (p.2.1 - q.2.1) ^ 2 + (p.2.2 - q.2.2) ^ 2 := by
      positivity
    have hz : (p.1 - q.1) ^ 2 + (p.2.1 - q.2.1) ^ 2 + (p.2.2 - q.2.2) ^ 2 = 0 :=
      (Real.sqrt_eq_zero hnn).mp h
    have h1 : p.1 - q.1 = 0 := by nlinarith [sq_nonneg (p.1 - q.1), sq_nonneg (p.2.1 - q.2.1), sq_nonneg (p.2.2 - q.2.2)]
    have h2 : p.2.1 - q.2.1 = 0 := by nlinarith [sq_nonneg (p.1 - q.1), sq_nonneg (p.2.1 - q.2.1), sq_nonneg (p.2.2 - q.2.2)]
    have h3 : p.2.2 - q.2.2 = 0 := by nlinarith [sq_nonneg (p.1 - q.1), sq_nonneg (p.2.1 - q.2.1), sq_nonneg (p.2.2 - q.2.2)]
    have : p = (q.1, q.2.1, q.2.2) := by
      ext <;> simp <;> linarith
    simpa using this
  · intro h
    subst h
    simp

/-- Summing a function over `l.eraseIdx i` is summing it over all positions
of `l` other than `i`. -/
theorem sum_map_eraseIdx {α : Type} (l : List α) (g : α → ℝ) (i : Fin l.length) :
    ((l.eraseIdx i.1).map g).sum = ∑ j ∈ Finset.univ.erase i, g (l.get j) := by
  classical
  have hmap : l.map g = List.ofFn (fun j : Fin l.length => g (l.get j)) := by
    conv_lhs => rw [← List.ofFn_get l]
    rw [List.map_ofFn]
    rfl
  have htot : (l.map g).sum = ∑ j : Fin l.length, g (l.get j) := by
    rw [hmap, Fin.sum_ofFn]
  have herase : ∑ j ∈ Finset.univ.erase i, g (l.get j)
      = (∑ j : Fin l.length, g (l.get j)) - g (l.get i) := by
    rw [Finset.sum_erase_eq_sub (Finset.mem_univ i)]
  have hidx : (i : ℕ) < l.length := i.isLt
  have h1 : ((l.eraseIdx i.1).map g).sum
      = ((l.take i.1).map g).sum + ((l.drop (i.1 + 1)).map g).sum := by
    rw [List.eraseIdx_eq_take_drop_succ, List.map_append, List.sum_append]
  have hsplit : l.take i.1 ++ l.get i :: l.drop (i.1 + 1) = l := by
    have hd : l.drop i.1 = l.get i :: l.drop (i.1 + 1) := by
      rw [List.drop_eq_getElem_cons hidx]
      rfl
    rw [← hd, List.take_append_drop]
  have h2 : (l.map g).sum
      = ((l.take i.1).map g).sum + (g (l.get i) + ((l.drop (i.1 + 1)).map g).sum) := by
    conv_lhs => rw [← hsplit]
    rw [List.map_append, List.map_cons, List.sum_append, List.sum_cons]
  rw [herase, ← htot, h1, h2]
  ring

/-- Length of the constructed atom list: `zip` truncates to the shorter of
the element and coordinate lists. -/
theorem buildAtoms_length (elements : List ℕ) (coordinates : List (ℝ × ℝ × ℝ))
    (ed : ElementData) :
    (buildAtoms elements coordinates ed).length = min elements.length coordinates.length := by
  simp [buildAtoms]

/-- There are as many coordination numbers as atoms. -/
theorem atomCNs_length (atoms : List Atom) : (atomCNs atoms).length = atoms.length := by
  simp [atomCNs]

/-- The atom built at position `i`. -/
theorem buildAtoms_get (elements : List ℕ) (coordinates : List (ℝ × ℝ × ℝ))
    (ed : ElementData) (i : ℕ) (h : i < (buildAtoms elements coordinates ed).length)
    (he : i < elements.length) (hc : i < coordinates.length) :
    (buildAtoms elements coordinates ed).get ⟨i, h⟩ =
      ⟨elements.get ⟨i, he⟩, coordinates.get ⟨i, hc⟩,
        ed.covalentRadius (elements.get ⟨i, he⟩), i + 1⟩ := by
  simp [buildAtoms, List.getElem_enum, List.getElem_zip]

/-- A successful `computePairs` run returns exactly the mapped pair values. -/
theorem computePairs_ok_eq (table : RefTable) (ed : ElementData)
    (l : List (Atom × ℝ)) (vs : List (ℝ × ℝ))
    (h : computePairs table ed l = .ok vs) : vs = l.map (pairValue table ed) := by
  induction l generalizing vs with
  | nil =>
    simp [computePairs] at h
    simp [h.symm]
  | cons p rest ih =>
    cases htab : table p.1.element with
    | none => simp [computePairs, atomC6C8, htab] at h
    | some refs =>
      cases hrest : computePairs table ed rest with
      | error e => simp [computePairs, atomC6C8, htab, hrest] at h
      | ok vs' =>
        simp [computePairs, atomC6C8, htab, hrest] at h
        rw [← h, List.map_cons, pairValue, ← ih vs' hrest]
        simp [htab]

/-- If every atom in the list has reference data, `computePairs` succeeds
with the mapped pair values. -/
theorem computePairs_ok_of_isSome (table : RefTable) (ed : ElementData)
    (l : List (Atom × ℝ)) (h : ∀ p ∈ l, (table p.1.element).isSome) :
    computePairs table ed l = .ok (l.map (pairValue table ed)) := by
  induction l with
  | nil => simp [computePairs]
  | cons p rest ih =>
    obtain ⟨refs, htab⟩ := Option.isSome_iff_exists.mp (h p (List.mem_cons_self p rest))
    have hrest := ih (fun q hq => h q (List.mem_cons_of_mem p hq))
    simp [computePairs, atomC6C8, htab, hrest, pairValue]

/-- A successful `computePairs` run needs reference data for every atom. -/
theorem computePairs_isSome_of_ok (table : RefTable) (ed : ElementData)
    (l : List (Atom × ℝ)) (vs : List (ℝ × ℝ))
    (h : computePairs table ed l = .ok vs) :
    ∀ p ∈ l, (table p.1.element).isSome := by
  induction l generalizing vs with
  | nil => simp
  | cons p rest ih =>
    cases htab : table p.1.element with
    | none => simp [computePairs, atomC6C8, htab] at h
    | some refs =>
      cases hrest : computePairs table ed rest with
      | error e => simp [computePairs, atomC6C8, htab, hrest] at h
      | ok vs' =>
        intro q hq
        rcases List.mem_cons.mp hq with hq | hq
        · rw [hq, htab]; rfl
        · exact ih vs' hrest q hq

/-- The only error `computePairs` can produce is a missing-reference-data
error for an element that is indeed absent from the table. -/
theorem computePairs_error_shape (table : RefTable) (ed : ElementData)
    (l : List (Atom × ℝ)) (err : CalcError)
    (h : computePairs table ed l = .error err) :
    ∃ x, err = .missingReferenceData x ∧ table x = none := by
  induction l generalizing err with
  | nil => simp [computePairs] at h
  | cons p rest ih =>
    cases htab : table p.1.element with
    | none =>
      simp [computePairs, atomC6C8, htab] at h
      exact ⟨p.1.element, h.symm, htab⟩
    | some refs =>
      cases hrest : computePairs table ed rest with
      | error e =>
        simp [computePairs, atomC6C8, htab, hrest] at h
        exact h ▸ ih e hrest
      | ok vs' => simp [computePairs, atomC6C8, htab, hrest] at h

/-- Successful end-to-end run, in closed form. -/
theorem D3Calculator_ok (elements : List ℕ) (coordinates : List (ℝ × ℝ × ℝ))
    (table : RefTable) (ed : ElementData)
    (h : ∀ a ∈ buildAtoms elements coordinates ed, (table a.element).isSome) :
    D3Calculator elements coordinates table ed =
      .ok
        ((((buildAtoms elements coordinates ed).zip
            (atomCNs (buildAtoms elements coordinates ed))).map
              (pairValue table ed)).map Prod.fst,
         (((buildAtoms elements coordinates ed).zip
            (atomCNs (buildAtoms elements coordinates ed))).map
              (pairValue table ed)).map Prod.snd) := by
  have hall : ∀ p ∈ (buildAtoms elements coordinates ed).zip
      (atomCNs (buildAtoms elements coordinates ed)), (table p.1.element).isSome := by
    intro p hp
    exact h p.1 (List.of_mem_zip hp).1
  unfold D3Calculator
  rw [computePairs_ok_of_isSome table ed _ hall]

/-- Analysis of a successful end-to-end run. -/
theorem D3Calculator_ok_elim (elements : List ℕ) (coordinates : List (ℝ × ℝ × ℝ))
    (table : RefTable) (ed : ElementData) (c6s c8s : List ℝ)
    (h : D3Calculator elements coordinates table ed = .ok (c6s, c8s)) :
    c6s = (((buildAtoms elements coordinates ed).zip
            (atomCNs (buildAtoms elements coordinates ed))).map
              (pairValue table ed)).map Prod.fst ∧
    c8s = (((buildAtoms elements coordinates ed).zip
            (atomCNs (buildAtoms elements coordinates ed))).map
              (pairValue table ed)).map Prod.snd ∧
    ∀ a ∈ buildAtoms elements coordinates ed, (table a.element).isSome := by
  unfold D3Calculator at h
  cases hcp : computePairs table ed ((buildAtoms elements coordinates ed).zip
      (atomCNs (buildAtoms elements coordinates ed))) with
  | error e => rw [hcp] at h; simp at h
  | ok vs =>
    rw [hcp] at h
    simp only [Except.ok.injEq, Prod.mk.injEq] at h
    have hvs := computePairs_ok_eq table ed _ vs hcp
    refine ⟨by rw [← h.1, hvs], by rw [← h.2, hvs], ?_⟩
    intro a ha
    have : a ∈ ((buildAtoms elements coordinates ed).zip
        (atomCNs (buildAtoms elements coordinates ed))).map Prod.fst := by
      rw [List.map_fst_zip _ _ (by rw [atomCNs_length])]
      exact ha
    obtain ⟨p, hp, hpa⟩ := List.mem_map.mp this
    exact hpa ▸ computePairs_isSome_of_ok table ed _ vs hcp p hp

/-! ### Evaluations of the embedding at explicit inputs -/

/-- One atom of element 1 at the origin: coordination number 0,
`c6 = 1`, `c8 = 3`. -/
theorem eval_single :
    D3Calculator [1] [((0 : ℝ), 0, 0)] egTable egED = .ok ([1], [3]) := by
  simp [D3Calculator, computePairs, atomC6C8, buildAtoms, atomCNs, cnAt,
    coordination_number, interpolateC6, weightSum, weightedC6Sum, refWeight,
    extrapolateC8, egTable, egED, k_3, List.ofFn_succ]

/-- Two element identifiers but a single coordinate triple: `zip` truncates
and the run succeeds with single-entry outputs. -/
theorem eval_truncated :
    D3Calculator [1, 1] [((0 : ℝ), 0, 0)] egTable egED = .ok ([1], [3]) := by
  simp [D3Calculator, computePairs, atomC6C8, buildAtoms, atomCNs, cnAt,
    coordination_number, interpolateC6, weightSum, weightedC6Sum, refWeight,
    extrapolateC8, egTable, egED, k_3, List.ofFn_succ]

/-- Empty input: the run succeeds with empty outputs. -/
theorem eval_empty :
    D3Calculator [] [] egTable egED = .ok ([], []) := by
  simp [D3Calculator, computePairs, buildAtoms, atomCNs]

/-- Two coincident atoms of element 1: each coordination number is exactly
`1` (the IEEE value of the sigmoid at a zero distance), and the run
succeeds with `c6 = 1`, `c8 = 3` for both atoms. -/
theorem eval_coincident :
    D3Calculator [1, 1] [((0 : ℝ), 0, 0), ((0 : ℝ), 0, 0)] egTable egED
      = .ok ([1, 1], [3, 3]) := by
  have hz : euclid ((0 : ℝ), (0 : ℝ), (0 : ℝ)) ((0 : ℝ), (0 : ℝ), (0 : ℝ)) = 0 :=
    (euclid_eq_zero_iff _ _).mpr rfl
  have hexp : Real.exp (-(8 : ℝ)) ≠ 0 := Real.exp_ne_zero _
  simp [D3Calculator, computePairs, atomC6C8, buildAtoms, atomCNs, cnAt,
    coordination_number, cnTerm, hz, interpolateC6, weightSum, weightedC6Sum,
    refWeight, extrapolateC8, egTable, egED, k_3, List.ofFn_succ]

/-- One atom of element 3 against the empty-reference-matrix table: the
weight sum is `0`, yet the run succeeds (the source would produce NaN from
`0 / 0`; under Lean's division convention the junk value is `0`). -/
theorem eval_emptyRefs :
    D3Calculator [3] [((0 : ℝ), 0, 0)] egTableEmpty egED = .ok ([0], [0]) := by
  simp [D3Calculator, computePairs, atomC6C8, buildAtoms, atomCNs, cnAt,
    coordination_number, interpolateC6, weightSum, weightedC6Sum, refWeight,
    extrapolateC8, egTableEmpty, egED, k_3, List.ofFn_succ]

/-- The coordination number of atom `i` as a `Finset` sum over all other
indices. -/
theorem cnAt_eq_finsetSum (atoms : List Atom) (i : Fin atoms.length) :
    cnAt atoms i = ∑ j ∈ Finset.univ.erase i,
      cnTerm (atoms.get i).radius (atoms.get j).radius
        (euclid (atoms.get i).coordinates (atoms.get j).coordinates) := by
  rw [cnAt, coordination_number, sum_map_eraseIdx]

/-- Unfolding equation for `atomCNs`, stated for rewriting. -/
theorem atomCNs_def (atoms : List Atom) : atomCNs atoms = List.ofFn (cnAt atoms) := rfl

/-- The `k`-th coordination number is `cnAt` at `k`. -/
theorem atomCNs_get (atoms : List Atom) (k : ℕ) (hk : k < (atomCNs atoms).length)
    (hk1 : k < atoms.length) :
    (atomCNs atoms).get ⟨k, hk⟩ = cnAt atoms ⟨k, hk1⟩ :=
  List.get_ofFn (cnAt atoms) ⟨k, hk⟩

/-- Building atoms from `Fin n`-indexed inputs gives the `Fin n`-indexed
atoms. -/
theorem buildAtoms_ofFn {n : ℕ} (elems : Fin n → ℕ) (coords : Fin n → ℝ × ℝ × ℝ)
    (ed : ElementData) :
    buildAtoms (List.ofFn elems) (List.ofFn coords) ed
      = List.ofFn (atomFn elems coords ed) := by
  apply List.ext_get
  · simp [buildAtoms]
  · intro i h1 h2
    simp [buildAtoms, List.getElem_enum, List.getElem_zip, atomFn]

/-- Value of `cnAt` over an `ofFn` list, re-indexed over `Fin n`. -/
theorem cnAt_ofFn {n : ℕ} (F : Fin n → Atom) (i : Fin (List.ofFn F).length) :
    cnAt (List.ofFn F) i =
      ∑ j ∈ Finset.univ.erase (Fin.cast (List.length_ofFn F) i),
        cnTerm (F (Fin.cast (List.length_ofFn F) i)).radius (F j).radius
          (euclid (F (Fin.cast (List.length_ofFn F) i)).coordinates (F j).coordinates) := by
  classical
  rw [cnAt_eq_finsetSum]
  have hget : ∀ j : Fin (List.ofFn F).length,
      (List.ofFn F).get j = F (Fin.cast (List.length_ofFn F) j) := by
    intro j
    rw [List.get_ofFn]
  rw [Finset.sum_erase_eq_sub (Finset.mem_univ i),
    Finset.sum_erase_eq_sub (Finset.mem_univ (Fin.cast (List.length_ofFn F) i))]
  have htot : (∑ j : Fin (List.ofFn F).length,
      cnTerm ((List.ofFn F).get i).radius ((List.ofFn F).get j).radius
        (euclid ((List.ofFn F).get i).coordinates ((List.ofFn F).get j).coordinates))
      = ∑ j : Fin n,
        cnTerm (F (Fin.cast (List.length_ofFn F) i)).radius (F j).radius
          (euclid (F (Fin.cast (List.length_ofFn F) i)).coordinates (F j).coordinates) := by
    rw [← Equiv.sum_comp (finCongr (List.length_ofFn F))
      (fun j => cnTerm (F (Fin.cast (List.length_ofFn F) i)).radius (F j).radius
        (euclid (F (Fin.cast (List.length_ofFn F) i)).coordinates (F j).coordinates))]
    apply Finset.sum_congr rfl
    intro j _
    rw [hget j, hget i]
    rfl
  rw [htot, hget i]

/-- Successful end-to-end run on `Fin n`-indexed inputs, in index form. -/
theorem D3Calculator_ofFn_ok {n : ℕ} (elems : Fin n → ℕ)
    (coords : Fin n → ℝ × ℝ × ℝ) (table : RefTable) (ed : ElementData)
    (h : ∀ i : Fin n, (table (elems i)).isSome) :
    D3Calculator (List.ofFn elems) (List.ofFn coords) table ed =
      .ok (List.ofFn (c6Fn table ed elems coords),
           List.ofFn (c8Fn table ed elems coords)) := by
  have hatoms := buildAtoms_ofFn elems coords ed
  have hsome : ∀ a ∈ buildAtoms (List.ofFn elems) (List.ofFn coords) ed,
      (table a.element).isSome := by
    rw [hatoms]
    intro a ha
    obtain ⟨i, hi⟩ := Set.mem_range.mp ((List.mem_ofFn _ a).mp ha)
    rw [← hi]
    exact h i
  rw [D3Calculator_ok _ _ _ _ hsome, hatoms]
  have hc : ∀ (k : ℕ) (hk : k < ((List.ofFn (atomFn elems coords ed)).zip
        (atomCNs (List.ofFn (atomFn elems coords ed)))).length) (hkn : k < n),
      pairValue table ed (((List.ofFn (atomFn elems coords ed)).zip
        (atomCNs (List.ofFn (atomFn elems coords ed)))).get ⟨k, hk⟩)
      = (c6Fn table ed elems coords ⟨k, hkn⟩, c8Fn table ed elems coords ⟨k, hkn⟩) := by
    intro k hk hkn
    have hk1 : k < (List.ofFn (atomFn elems coords ed)).length := by simpa using hkn
    rw [List.get_zip, List.get_ofFn,
      atomCNs_get (List.ofFn (atomFn elems coords ed)) k _ hk1, cnAt_ofFn]
    rfl
  have hzl : ((List.ofFn (atomFn elems coords ed)).zip
      (atomCNs (List.ofFn (atomFn elems coords ed)))).length = n := by
    simp [List.length_zip, atomCNs_length]
  congr 1
  refine Prod.ext ?_ ?_
  · apply List.ext_get
    · simp [hzl]
    · intro k hkl hkr
      have hk : k < ((List.ofFn (atomFn elems coords ed)).zip
          (atomCNs (List.ofFn (atomFn elems coords ed)))).length := by
        rw [List.length_map, List.length_map] at hkl
        exact hkl
      have hkn : k < n := by rwa [hzl] at hk
      rw [List.get_ofFn, List.get_map, List.get_map]
      rw [hc k hk hkn]
      rfl
  · apply List.ext_get
    · simp [hzl]
    · intro k hkl hkr
      have hk : k < ((List.ofFn (atomFn elems coords ed)).zip
          (atomCNs (List.ofFn (atomFn elems coords ed)))).length := by
        rw [List.length_map, List.length_map] at hkl
        exact hkl
      have hkn : k < n := by rwa [hzl] at hk
      rw [List.get_ofFn, List.get_map, List.get_map]
      rw [hc k hk hkn]
      rfl

/-- Permuting the atoms permutes the coordination numbers: the sum over
"all other atoms" is invariant under reindexing by a bijection. -/
theorem cnFn_perm {n : ℕ} (elems : Fin n → ℕ) (coords : Fin n → ℝ × ℝ × ℝ)
    (ed : ElementData) (σ : Equiv.Perm (Fin n)) (i : Fin n) :
    cnFn (fun j => elems (σ j)) (fun j => coords (σ j)) ed i
      = cnFn elems coords ed (σ i) := by
  classical
  unfold cnFn
  rw [Finset.sum_erase_eq_sub (Finset.mem_univ i),
    Finset.sum_erase_eq_sub (Finset.mem_univ (σ i))]
  congr 1
  exact Equiv.sum_comp σ (fun j =>
    cnTerm (ed.covalentRadius (elems (σ i))) (ed.covalentRadius (elems j))
      (euclid (coords (σ i)) (coords j)))

/-- Permuting the atoms permutes the C6 coefficients. -/
theorem c6Fn_perm {n : ℕ} (table : RefTable) (ed : ElementData)
    (elems : Fin n → ℕ) (coords : Fin n → ℝ × ℝ × ℝ) (σ : Equiv.Perm (Fin n))
    (i : Fin n) :
    c6Fn table ed (fun j => elems (σ j)) (fun j => coords (σ j)) i
      = c6Fn table ed elems coords (σ i) := by
  unfold c6Fn
  rw [cnFn_perm]

/-- Permuting the atoms permutes the C8 coefficients. -/
theorem c8Fn_perm {n : ℕ} (table : RefTable) (ed : ElementData)
    (elems : Fin n → ℕ) (coords : Fin n → ℝ × ℝ × ℝ) (σ : Equiv.Perm (Fin n))
    (i : Fin n) :
    c8Fn table ed (fun j => elems (σ j)) (fun j => coords (σ j)) i
      = c8Fn table ed elems coords (σ i) := by
  unfold c8Fn
  rw [c6Fn_perm]

/-- Value of `getD` on an `ofFn` list at an in-range index. -/
theorem getD_ofFn {n : ℕ} (f : Fin n → ℝ) (i : Fin n) :
    (List.ofFn f).getD i 0 = f i := by
  have hi : (i : ℕ) < (List.ofFn f).length := by simpa using i.isLt
  rw [List.getD_eq_get _ _ hi, List.get_ofFn]
  rfl

/-! ### Claim theorems -/

/-- C1: for atoms with pairwise distinct positions, the coordination number
of atom `i` is `Σ_{j≠i} 1 / (1 + exp(−k1 · (k2 · (r_i + r_j) / d_ij − 1)))`
with `k1 = 16`, `k2 = 4/3` and `d_ij` the exact Euclidean distance. -/
theorem c1_coordination_number_formula (atoms : List Atom)
    (hd : ∀ i j : Fin atoms.length, i ≠ j →
      (atoms.get i).coordinates ≠ (atoms.get j).coordinates)
    (i : Fin atoms.length) :
    cnAt atoms i = ∑ j ∈ Finset.univ.erase i,
      1 / (1 + Real.exp (-(16 : ℝ) *
        ((4 / 3) * ((atoms.get i).radius + (atoms.get j).radius) /
          euclid (atoms.get i).coordinates (atoms.get j).coordinates - 1))) := by
  rw [cnAt_eq_finsetSum]
  apply Finset.sum_congr rfl
  intro j hj
  have hji : j ≠ i := (Finset.mem_erase.mp hj).1
  have hne : (atoms.get i).coordinates ≠ (atoms.get j).coordinates :=
    hd i j (Ne.symm hji)
  have hd0 : euclid (atoms.get i).coordinates (atoms.get j).coordinates ≠ 0 :=
    fun h0 => hne ((euclid_eq_zero_iff _ _).mp h0)
  rw [cnTerm, if_neg hd0, k_1, k_2]

/-- Witness for C1: two distinct atoms, evaluated at atom 0. -/
theorem c1_witness :
    (∀ i j : Fin ([egA, egB] : List Atom).length, i ≠ j →
      (([egA, egB] : List Atom).get i).coordinates
        ≠ (([egA, egB] : List Atom).get j).coordinates) ∧
    cnAt [egA, egB] ⟨0, by simp⟩ =
      ∑ j ∈ Finset.univ.erase (⟨0, by simp⟩ : Fin ([egA, egB] : List Atom).length),
        1 / (1 + Real.exp (-(16 : ℝ) *
          ((4 / 3) * ((([egA, egB] : List Atom).get ⟨0, by simp⟩).radius
              + (([egA, egB] : List Atom).get j).radius) /
            euclid (([egA, egB] : List Atom).get ⟨0, by simp⟩).coordinates
              (([egA, egB] : List Atom).get j).coordinates - 1))) := by
  have hd : ∀ i j : Fin ([egA, egB] : List Atom).length, i ≠ j →
      (([egA, egB] : List Atom).get i).coordinates
        ≠ (([egA, egB] : List Atom).get j).coordinates := by
    intro i j hij
    fin_cases i <;> fin_cases j <;> simp_all [egA, egB, Prod.ext_iff]
  exact ⟨hd, c1_coordination_number_formula [egA, egB] hd ⟨0, by simp⟩⟩

/-- C2: for an atom with reference entries and a nonzero weight sum, the
interpolated C6 is the weighted average `Σ(c6_ref · L) / Σ(L)` with
`L = exp(−k3 · ((CN − cn1)² + (CN − cn2)²))` and `k3 = 4`. -/
theorem c2_c6_weighted_average (refs : List RefEntry) (cn : ℝ)
    (hne : refs ≠ []) (hW : weightSum refs cn ≠ 0) :
    interpolateC6 refs cn =
      (refs.map (fun e =>
        e.c6ref * Real.exp (-(4 : ℝ) * ((cn - e.cn1) ^ 2 + (cn - e.cn2) ^ 2)))).sum /
      (refs.map (fun e =>
        Real.exp (-(4 : ℝ) * ((cn - e.cn1) ^ 2 + (cn - e.cn2) ^ 2)))).sum := by
  unfold interpolateC6 weightedC6Sum weightSum refWeight k_3
  norm_num

/-- Witness for C2 on a two-row reference table at `CN = 0`. -/
theorem c2_witness :
    (egRefs2 ≠ [] ∧ weightSum egRefs2 0 ≠ 0) ∧
    interpolateC6 egRefs2 0 =
      (egRefs2.map (fun e =>
        e.c6ref * Real.exp (-(4 : ℝ) * ((0 - e.cn1) ^ 2 + (0 - e.cn2) ^ 2)))).sum /
      (egRefs2.map (fun e =>
        Real.exp (-(4 : ℝ) * ((0 - e.cn1) ^ 2 + (0 - e.cn2) ^ 2)))).sum := by
  have hne : egRefs2 ≠ [] := by simp [egRefs2]
  have hW : weightSum egRefs2 0 ≠ 0 := by
    have hpos : 0 < weightSum egRefs2 0 := by
      simp only [weightSum, egRefs2, refWeight, List.map_cons, List.map_nil,
        List.sum_cons, List.sum_nil]
      positivity
    exact ne_of_gt hpos
  exact ⟨⟨hne, hW⟩, c2_c6_weighted_average egRefs2 0 hne hW⟩

/-- C8 (claim): a single-atom system is processed without error and its
coordination number is exactly `0` (the sum over other atoms is empty). -/
theorem c8claim_single_atom_cn_zero (a : Atom) : atomCNs [a] = [0] := by
  simp [atomCNs, cnAt, coordination_number, List.ofFn_succ]

/-- C10: with a strictly positive weight sum, the interpolated C6 lies
between any lower and any upper bound of the reference C6 values; in
particular between their minimum and maximum. -/
theorem c10_c6_within_reference_range (refs : List RefEntry) (cn lo hi : ℝ)
    (hW : 0 < weightSum refs cn)
    (hlo : ∀ e ∈ refs, lo ≤ e.c6ref) (hhi : ∀ e ∈ refs, e.c6ref ≤ hi) :
    lo ≤ interpolateC6 refs cn ∧ interpolateC6 refs cn ≤ hi := by
  constructor
  · rw [interpolateC6, le_div_iff hW]
    have h1 : lo * weightSum refs cn = (refs.map (fun e => lo * refWeight cn e)).sum := by
      rw [weightSum, ← List.sum_map_mul_left]
    rw [h1, weightedC6Sum]
    apply List.sum_le_sum
    intro e he
    exact mul_le_mul_of_nonneg_right (hlo e he) (le_of_lt (Real.exp_pos _))
  · rw [interpolateC6, div_le_iff hW]
    have h1 : hi * weightSum refs cn = (refs.map (fun e => hi * refWeight cn e)).sum := by
      rw [weightSum, ← List.sum_map_mul_left]
    rw [mul_comm (hi) (weightSum refs cn), mul_comm, h1, weightedC6Sum]
    apply List.sum_le_sum
    intro e he
    exact mul_le_mul_of_nonneg_right (hhi e he) (le_of_lt (Real.exp_pos _))

/-- Witness for C10: the two-row table with reference C6 values `1` and `2`
at `CN = 0` keeps the interpolated C6 inside `[1, 2]`. -/
theorem c10_witness :
    (0 < weightSum egRefs2 0 ∧ (∀ e ∈ egRefs2, 1 ≤ e.c6ref) ∧
      (∀ e ∈ egRefs2, e.c6ref ≤ 2)) ∧
    1 ≤ interpolateC6 egRefs2 0 ∧ interpolateC6 egRefs2 0 ≤ 2 := by
  have hW : 0 < weightSum egRefs2 0 := by
    simp only [weightSum, egRefs2, refWeight, List.map_cons, List.map_nil,
      List.sum_cons, List.sum_nil]
    positivity
  have hlo : ∀ e ∈ egRefs2, (1 : ℝ) ≤ e.c6ref := by
    intro e he
    simp only [egRefs2, List.mem_cons, List.not_mem_nil, or_false] at he
    rcases he with rfl | rfl <;> norm_num
  have hhi : ∀ e ∈ egRefs2, e.c6ref ≤ (2 : ℝ) := by
    intro e he
    simp only [egRefs2, List.mem_cons, List.not_mem_nil, or_false] at he
    rcases he with rfl | rfl <;> norm_num
  exact ⟨⟨hW, hlo, hhi⟩, c10_c6_within_reference_range egRefs2 0 1 2 hW hlo hhi⟩

/-- C3: in every successful run, the `i`-th C8 coefficient is exactly
`3 · c6_i · r2r4(element_i)²`. -/
theorem c3_c8_scaling (elements : List ℕ) (coordinates : List (ℝ × ℝ × ℝ))
    (table : RefTable) (ed : ElementData) (c6s c8s : List ℝ)
    (h : D3Calculator elements coordinates table ed = .ok (c6s, c8s))
    (i : ℕ) (h6 : i < c6s.length) (h8 : i < c8s.length)
    (hA : i < (buildAtoms elements coordinates ed).length) :
    c8s.get ⟨i, h8⟩ = 3 * c6s.get ⟨i, h6⟩ *
      ed.r2r4 ((buildAtoms elements coordinates ed).get ⟨i, hA⟩).element ^ 2 := by
  obtain ⟨h1, h2, -⟩ := D3Calculator_ok_elim elements coordinates table ed c6s c8s h
  subst h1
  subst h2
  simp only [List.get_eq_getElem, List.getElem_map, List.getElem_zip]
  simp [pairValue, extrapolateC8]

/-- Witness for C3: the single-atom run, where `c6 = 1`, `c8 = 3` and the
r2r4 constant is `1`. -/
theorem c3_witness :
    D3Calculator [1] [((0 : ℝ), 0, 0)] egTable egED = .ok ([1], [3]) ∧
    ([(3 : ℝ)].get ⟨0, by norm_num⟩ = 3 * [(1 : ℝ)].get ⟨0, by norm_num⟩ *
      egED.r2r4 ((buildAtoms [1] [((0 : ℝ), 0, 0)] egED).get
        ⟨0, by simp [buildAtoms_length]⟩).element ^ 2) :=
  ⟨eval_single,
    c3_c8_scaling [1] [((0 : ℝ), 0, 0)] egTable egED [1] [3] eval_single 0
      (by norm_num) (by norm_num) (by simp [buildAtoms_length])⟩

/-- C7: if any atom's element is absent from the reference table, the run
fails with a missing-reference-data error naming an absent element; no
value is returned. -/
theorem c7_missing_reference_data (elements : List ℕ)
    (coordinates : List (ℝ × ℝ × ℝ)) (table : RefTable) (ed : ElementData)
    (i : ℕ) (hi : i < (buildAtoms elements coordinates ed).length)
    (hnone : table ((buildAtoms elements coordinates ed).get ⟨i, hi⟩).element = none) :
    ∃ e, D3Calculator elements coordinates table ed
        = .error (.missingReferenceData e) ∧ table e = none := by
  cases hres : D3Calculator elements coordinates table ed with
  | ok out =>
    obtain ⟨c6s, c8s⟩ := out
    obtain ⟨-, -, hsome⟩ := D3Calculator_ok_elim elements coordinates table ed c6s c8s hres
    have hmem := hsome _ (List.get_mem (buildAtoms elements coordinates ed) i hi)
    rw [hnone] at hmem
    simp at hmem
  | error err =>
    unfold D3Calculator at hres
    cases hcp : computePairs table ed ((buildAtoms elements coordinates ed).zip
        (atomCNs (buildAtoms elements coordinates ed))) with
    | ok vs => rw [hcp] at hres; simp at hres
    | error e2 =>
      rw [hcp] at hres
      simp only [Except.error.injEq] at hres
      obtain ⟨x, hx1, hx2⟩ := computePairs_error_shape table ed _ e2 hcp
      exact ⟨x, by rw [← hres, hx1], hx2⟩

/-- Witness for C7: element 2 is absent from the example table. -/
theorem c7_witness :
    egTable ((buildAtoms [2] [((0 : ℝ), 0, 0)] egED).get
      ⟨0, by simp [buildAtoms_length]⟩).element = none ∧
    ∃ e, D3Calculator [2] [((0 : ℝ), 0, 0)] egTable egED
        = .error (.missingReferenceData e) ∧ egTable e = none := by
  have hnone : egTable ((buildAtoms [2] [((0 : ℝ), 0, 0)] egED).get
      ⟨0, by simp [buildAtoms_length]⟩).element = none := by
    simp [buildAtoms, egTable]
  exact ⟨hnone,
    c7_missing_reference_data [2] [((0 : ℝ), 0, 0)] egTable egED 0
      (by simp [buildAtoms_length]) hnone⟩

/-- C4 is false on the code: two exactly coincident atoms do not raise any
error; the run completes and returns finite coefficients (the coincident
pair's sigmoid term is exactly `1` under the source's IEEE arithmetic). -/
theorem c4_counterexample :
    D3Calculator [1, 1] [((0 : ℝ), 0, 0), ((0 : ℝ), 0, 0)] egTable egED
      = .ok ([1, 1], [3, 3]) :=
  eval_coincident

/-- C4 (amended): a pair of coincident atoms is processed silently, the
coincident neighbor contributing exactly `1` to the coordination number. -/
theorem c4_amended_coincident_term (a b : Atom)
    (h : a.coordinates = b.coordinates) :
    coordination_number a [b] = 1 := by
  simp [coordination_number, cnTerm, h, (euclid_eq_zero_iff b.coordinates b.coordinates).mpr rfl]

/-- Witness for the amended C4: two concrete coincident atoms. -/
theorem c4_amended_witness :
    egA.coordinates = egC.coordinates ∧ coordination_number egA [egC] = 1 :=
  ⟨by simp [egA, egC], c4_amended_coincident_term egA egC (by simp [egA, egC])⟩

/-- C5 is false on the code: an atom whose interpolation weight sum is `0`
(here: an element present in the table with an empty reference matrix) does
not raise; the division is performed anyway and the run returns ok. -/
theorem c5_counterexample :
    weightSum [] (0 : ℝ) = 0 ∧ egTableEmpty 3 = some [] ∧
    D3Calculator [3] [((0 : ℝ), 0, 0)] egTableEmpty egED = .ok ([0], [0]) :=
  ⟨by simp [weightSum], by simp [egTableEmpty], eval_emptyRefs⟩

/-- C5 (amended): no interpolation-degeneracy error exists; whenever every
atom's element resolves in the reference table, the run succeeds regardless
of any weight sum (the source divides unconditionally, yielding NaN for a
zero weight sum). -/
theorem c5_amended_no_degeneracy_error (elements : List ℕ)
    (coordinates : List (ℝ × ℝ × ℝ)) (table : RefTable) (ed : ElementData)
    (h : ∀ a ∈ buildAtoms elements coordinates ed, (table a.element).isSome) :
    ∃ out, D3Calculator elements coordinates table ed = .ok out :=
  ⟨_, D3Calculator_ok elements coordinates table ed h⟩

/-- Witness for the amended C5: the zero-weight-sum input still returns ok. -/
theorem c5_amended_witness :
    (∀ a ∈ buildAtoms [3] [((0 : ℝ), 0, 0)] egED, ((egTableEmpty a.element).isSome : Prop)) ∧
    ∃ out, D3Calculator [3] [((0 : ℝ), 0, 0)] egTableEmpty egED = .ok out := by
  have h : ∀ a ∈ buildAtoms [3] [((0 : ℝ), 0, 0)] egED,
      ((egTableEmpty a.element).isSome : Prop) := by
    intro a ha
    simp [buildAtoms] at ha
    simp [ha, egTableEmpty]
  exact ⟨h, c5_amended_no_degeneracy_error [3] [((0 : ℝ), 0, 0)] egTableEmpty egED h⟩

/-- C6 is false on the code: mismatched input lengths are silently
truncated by `zip` (two elements, one coordinate still returns ok with one
output per list), and empty input returns ok with empty outputs; neither
case fails. -/
theorem c6_counterexample :
    D3Calculator [1, 1] [((0 : ℝ), 0, 0)] egTable egED = .ok ([1], [3]) ∧
    D3Calculator [] [] egTable egED = .ok ([], []) :=
  ⟨eval_truncated, eval_empty⟩

/-- C6 (amended): no shape or emptiness validation exists; a successful run
returns outputs of length `min len(elements) len(coordinates)`, the silent
`zip` truncation. -/
theorem c6_amended_output_lengths (elements : List ℕ)
    (coordinates : List (ℝ × ℝ × ℝ)) (table : RefTable) (ed : ElementData)
    (c6s c8s : List ℝ)
    (h : D3Calculator elements coordinates table ed = .ok (c6s, c8s)) :
    c6s.length = min elements.length coordinates.length ∧
    c8s.length = min elements.length coordinates.length := by
  obtain ⟨h1, h2, -⟩ := D3Calculator_ok_elim elements coordinates table ed c6s c8s h
  subst h1
  subst h2
  constructor <;>
    simp [List.length_zip, atomCNs_length, buildAtoms_length]

/-- Witness for the amended C6: the truncated run has outputs of length
`min 2 1 = 1`. -/
theorem c6_amended_witness :
    D3Calculator [1, 1] [((0 : ℝ), 0, 0)] egTable egED = .ok ([1], [3]) ∧
    ([(1 : ℝ)].length = min ([1, 1] : List ℕ).length [((0 : ℝ), 0, 0)].length ∧
     [(3 : ℝ)].length = min ([1, 1] : List ℕ).length [((0 : ℝ), 0, 0)].length) :=
  ⟨eval_truncated,
    c6_amended_output_lengths [1, 1] [((0 : ℝ), 0, 0)] egTable egED [1] [3] eval_truncated⟩

/-- C9: order-equivariance. For every valid (successful) input and every
permutation `σ` of the atom order, the run on the permuted input succeeds
and its output sequences are the same permutation of the original outputs:
entry `i` of the permuted output equals entry `σ i` of the original. -/
theorem c9_order_equivariance {n : ℕ} (elems : Fin n → ℕ)
    (coords : Fin n → ℝ × ℝ × ℝ) (table : RefTable) (ed : ElementData)
    (σ : Equiv.Perm (Fin n)) (c6s c8s : List ℝ)
    (h : D3Calculator (List.ofFn elems) (List.ofFn coords) table ed = .ok (c6s, c8s)) :
    ∃ c6s' c8s' : List ℝ,
      D3Calculator (List.ofFn (fun i => elems (σ i))) (List.ofFn (fun i => coords (σ i)))
          table ed = .ok (c6s', c8s') ∧
      c6s'.length = c6s.length ∧ c8s'.length = c8s.length ∧
      ∀ i : Fin n, c6s'.getD i 0 = c6s.getD (σ i) 0 ∧
        c8s'.getD i 0 = c8s.getD (σ i) 0 := by
  have hsome : ∀ i : Fin n, (table (elems i)).isSome := by
    obtain ⟨-, -, hs⟩ := D3Calculator_ok_elim _ _ _ _ _ _ h
    intro i
    exact hs (atomFn elems coords ed i)
      (by rw [buildAtoms_ofFn]; exact (List.mem_ofFn _ _).mpr ⟨i, rfl⟩)
  have h1 := D3Calculator_ofFn_ok elems coords table ed hsome
  rw [h1] at h
  simp only [Except.ok.injEq, Prod.mk.injEq] at h
  obtain ⟨h6, h8⟩ := h
  have hsome' : ∀ i : Fin n, (table ((fun j => elems (σ j)) i)).isSome :=
    fun i => hsome (σ i)
  have h2 := D3Calculator_ofFn_ok (fun j => elems (σ j)) (fun j => coords (σ j))
    table ed hsome'
  refine ⟨_, _, h2, ?_, ?_, ?_⟩
  · rw [← h6]; simp
  · rw [← h8]; simp
  · intro i
    constructor
    · rw [← h6, getD_ofFn, getD_ofFn, c6Fn_perm]
    · rw [← h8, getD_ofFn, getD_ofFn, c8Fn_perm]

/-- Witness for C9: the coincident two-atom system under the swap
permutation. -/
theorem c9_witness :
    D3Calculator (List.ofFn (fun _ : Fin 2 => (1 : ℕ)))
        (List.ofFn (fun _ : Fin 2 => ((0 : ℝ), (0 : ℝ), (0 : ℝ)))) egTable egED
      = .ok ([1, 1], [3, 3]) ∧
    ∃ c6s' c8s' : List ℝ,
      D3Calculator (List.ofFn (fun _ : Fin 2 => (1 : ℕ)))
          (List.ofFn (fun _ : Fin 2 => ((0 : ℝ), (0 : ℝ), (0 : ℝ)))) egTable egED
        = .ok (c6s', c8s') ∧
      c6s'.length = ([1, 1] : List ℝ).length ∧
      c8s'.length = ([3, 3] : List ℝ).length ∧
      ∀ i : Fin 2, c6s'.getD i 0
          = ([1, 1] : List ℝ).getD (((Equiv.swap (0 : Fin 2) 1) i : Fin 2) : ℕ) 0 ∧
        c8s'.getD i 0
          = ([3, 3] : List ℝ).getD (((Equiv.swap (0 : Fin 2) 1) i : Fin 2) : ℕ) 0 := by
  have hl1 : List.ofFn (fun _ : Fin 2 => (1 : ℕ)) = [1, 1] := by
    simp [List.ofFn_succ]
  have hl2 : List.ofFn (fun _ : Fin 2 => ((0 : ℝ), (0 : ℝ), (0 : ℝ)))
      = [((0 : ℝ), 0, 0), ((0 : ℝ), 0, 0)] := by
    simp [List.ofFn_succ]
  have hEval : D3Calculator (List.ofFn (fun _ : Fin 2 => (1 : ℕ)))
      (List.ofFn (fun _ : Fin 2 => ((0 : ℝ), (0 : ℝ), (0 : ℝ)))) egTable egED
      = .ok ([1, 1], [3, 3]) := by
    rw [hl1, hl2]
    exact eval_coincident
  exact ⟨hEval,
    c9_order_equivariance (fun _ : Fin 2 => (1 : ℕ))
      (fun _ : Fin 2 => ((0 : ℝ), (0 : ℝ), (0 : ℝ))) egTable egED
      (Equiv.swap (0 : Fin 2) 1) [1, 1] [3, 3] hEval⟩

end Morfeus
